import Mathlib

/-!
Verification of the extension running-location policy and the Electron
preload bridge of this repository slice.

The main embedded functions are:
* `ExtensionService.pickRunningLocation` — the static placement policy from
  the browser extension service (src/unnamed/part_000, lines 137-170).
* `validateIPC`, `validateProcessEventType`, `resolveEnv` and the exposed
  `ipcRenderer` / `process` bridge methods from
  src/vs/base/parts/sandbox/electron-browser/preload.js.
-/

/-- Extension kind tag, from the `ExtensionKind` union type
(`'ui' | 'workspace' | 'web'`). -/
inductive ExtensionKind where
  | ui
  | workspace
  | web
deriving DecidableEq, Repr

/-- The `ExtensionRunningPreference` enumeration used by
`pickRunningLocation`. -/
inductive ExtensionRunningPreference where
  | None
  | Local
  | Remote
deriving DecidableEq, Repr

/-- The `ExtensionRunningLocation` enumeration (only the values used by the
browser extension service appear in this slice). -/
inductive ExtensionRunningLocation where
  | None
  | LocalWebWorker
  | Remote
deriving DecidableEq, Repr

namespace ExtensionService

open ExtensionKind ExtensionRunningPreference ExtensionRunningLocation

/-- One iteration step plus the rest of the loop of
`ExtensionService.pickRunningLocation`, with the mutable loop state made
explicit: `result` is the accumulated candidate array and `canRunRemotely`
the boolean flag.  The three `if` branches of the loop body are mutually
exclusive (they test the same `extensionKind` against distinct literals),
so we match on the kind. -/
def pickLoop (isInstalledLocally isInstalledRemotely : Bool)
    (preference : ExtensionRunningPreference)
    (extensionKinds : List ExtensionKind)
    (result : List ExtensionRunningLocation) (canRunRemotely : Bool) :
    ExtensionRunningLocation :=
  match extensionKinds with
  | [] =>
    let result := if canRunRemotely then result ++ [ExtensionRunningLocation.Remote] else result
    match result with
    | [] => ExtensionRunningLocation.None
    | r :: _ => r
  | k :: rest =>
    match k with
    | ExtensionKind.ui =>
      if isInstalledRemotely then
        -- ui extensions run remotely if possible (but only as a last resort)
        if preference = ExtensionRunningPreference.Remote then
          ExtensionRunningLocation.Remote
        else
          pickLoop isInstalledLocally isInstalledRemotely preference rest result true
      else
        pickLoop isInstalledLocally isInstalledRemotely preference rest result canRunRemotely
    | ExtensionKind.workspace =>
      if isInstalledRemotely then
        -- workspace extensions run remotely if possible
        if preference = ExtensionRunningPreference.None ∨
            preference = ExtensionRunningPreference.Remote then
          ExtensionRunningLocation.Remote
        else
          pickLoop isInstalledLocally isInstalledRemotely preference rest
            (result ++ [ExtensionRunningLocation.Remote]) canRunRemotely
      else
        pickLoop isInstalledLocally isInstalledRemotely preference rest result canRunRemotely
    | ExtensionKind.web =>
      if isInstalledLocally then
        -- web worker extensions run in the local web worker if possible
        if preference = ExtensionRunningPreference.None ∨
            preference = ExtensionRunningPreference.Local then
          ExtensionRunningLocation.LocalWebWorker
        else
          pickLoop isInstalledLocally isInstalledRemotely preference rest
            (result ++ [ExtensionRunningLocation.LocalWebWorker]) canRunRemotely
      else
        pickLoop isInstalledLocally isInstalledRemotely preference rest result canRunRemotely

/-- `ExtensionService.pickRunningLocation` from src/unnamed/part_000
(lines 137-170): the loop starts with an empty candidate array and
`canRunRemotely = false`. -/
def pickRunningLocation (extensionKinds : List ExtensionKind)
    (isInstalledLocally isInstalledRemotely : Bool)
    (preference : ExtensionRunningPreference) : ExtensionRunningLocation :=
  pickLoop isInstalledLocally isInstalledRemotely preference extensionKinds [] false

/-- The immediate-return decision a single kind makes in the loop body:
`some loc` when processing that kind causes `return loc`, `none` when the
loop continues past it. -/
def immediateReturn (k : ExtensionKind)
    (isInstalledLocally isInstalledRemotely : Bool)
    (preference : ExtensionRunningPreference) :
    Option ExtensionRunningLocation :=
  match k with
  | ExtensionKind.ui =>
    if isInstalledRemotely ∧ preference = ExtensionRunningPreference.Remote then
      some ExtensionRunningLocation.Remote
    else none
  | ExtensionKind.workspace =>
    if isInstalledRemotely ∧ (preference = ExtensionRunningPreference.None ∨
        preference = ExtensionRunningPreference.Remote) then
      some ExtensionRunningLocation.Remote
    else none
  | ExtensionKind.web =>
    if isInstalledLocally ∧ (preference = ExtensionRunningPreference.None ∨
        preference = ExtensionRunningPreference.Local) then
      some ExtensionRunningLocation.LocalWebWorker
    else none

/-- The candidate a single kind defers (pushes onto the `result` array)
instead of returning immediately. -/
def deferredCandidate (k : ExtensionKind)
    (isInstalledLocally isInstalledRemotely : Bool)
    (preference : ExtensionRunningPreference) :
    Option ExtensionRunningLocation :=
  match k with
  | ExtensionKind.ui => none
  | ExtensionKind.workspace =>
    if isInstalledRemotely ∧ preference = ExtensionRunningPreference.Local then
      some ExtensionRunningLocation.Remote
    else none
  | ExtensionKind.web =>
    if isInstalledLocally ∧ preference = ExtensionRunningPreference.Remote then
      some ExtensionRunningLocation.LocalWebWorker
    else none

/-- The deferred candidates collected in kind order. -/
def deferredCandidates (extensionKinds : List ExtensionKind)
    (isInstalledLocally isInstalledRemotely : Bool)
    (preference : ExtensionRunningPreference) :
    List ExtensionRunningLocation :=
  extensionKinds.filterMap
    (fun k => deferredCandidate k isInstalledLocally isInstalledRemotely preference)

/-- Whether some kind sets the `canRunRemotely` flag, i.e. some `ui` kind
with the extension installed remotely and a preference that is not
`Remote`. -/
def setsCanRunRemotely (extensionKinds : List ExtensionKind)
    (isInstalledRemotely : Bool)
    (preference : ExtensionRunningPreference) : Bool :=
  extensionKinds.any
    (fun k => k = ExtensionKind.ui ∧ isInstalledRemotely = true ∧
      (preference = ExtensionRunningPreference.None ∨
       preference = ExtensionRunningPreference.Local))

/-- The value returned once the loop has finished: the first element of the
candidate array (with the last-resort `Remote` appended when the flag is
set), or `None` when the array is empty. -/
def finalize (result : List ExtensionRunningLocation) (canRunRemotely : Bool) :
    ExtensionRunningLocation :=
  match (if canRunRemotely then result ++ [ExtensionRunningLocation.Remote] else result) with
  | [] => ExtensionRunningLocation.None
  | r :: _ => r

theorem pickLoop_nil (isL isR : Bool) (pref : ExtensionRunningPreference)
    (acc : List ExtensionRunningLocation) (c : Bool) :
    pickLoop isL isR pref [] acc c = finalize acc c := rfl

/-- Structure lemma: a run of the loop over `pre ++ rest` where no kind of
`pre` triggers an immediate return first accumulates the deferred
candidates of `pre` and the `canRunRemotely` contribution of `pre`, then
continues with `rest`. -/
theorem pickLoop_append (isL isR : Bool) (pref : ExtensionRunningPreference)
    (pre rest : List ExtensionKind)
    (acc : List ExtensionRunningLocation) (c : Bool)
    (h : ∀ k ∈ pre, immediateReturn k isL isR pref = none) :
    pickLoop isL isR pref (pre ++ rest) acc c =
      pickLoop isL isR pref rest
        (acc ++ deferredCandidates pre isL isR pref)
        (c || setsCanRunRemotely pre isR pref) := by
  induction pre generalizing acc c with
  | nil => simp [deferredCandidates, setsCanRunRemotely]
  | cons k ks ih =>
    have hk := h k (by simp)
    have hks : ∀ k ∈ ks, immediateReturn k isL isR pref = none := by
      intro x hx; exact h x (by simp [hx])
    cases k with
    | ui =>
      cases isR with
      | false =>
        simp only [List.cons_append, List.append_eq, pickLoop, Bool.false_eq_true, if_false]
        rw [ih _ _ hks]
        simp [deferredCandidates, deferredCandidate, setsCanRunRemotely]
      | true =>
        have hpref : ¬ pref = ExtensionRunningPreference.Remote := by
          intro hp
          simp [immediateReturn, hp] at hk
        simp only [List.cons_append, List.append_eq, pickLoop, if_true, hpref, if_false]
        rw [ih _ _ hks]
        simp [deferredCandidates, deferredCandidate, setsCanRunRemotely, hpref]
        rcases pref with _ | _ | _ <;> simp_all
    | workspace =>
      cases isR with
      | false =>
        simp only [List.cons_append, List.append_eq, pickLoop, Bool.false_eq_true, if_false]
        rw [ih _ _ hks]
        simp [deferredCandidates, deferredCandidate, setsCanRunRemotely]
      | true =>
        have hpref : ¬ (pref = ExtensionRunningPreference.None ∨
            pref = ExtensionRunningPreference.Remote) := by
          intro hp
          simp [immediateReturn, hp] at hk
        simp only [List.cons_append, List.append_eq, pickLoop, if_true, hpref, if_false]
        rw [ih _ _ hks]
        have hL : pref = ExtensionRunningPreference.Local := by
          rcases pref with _ | _ | _ <;> simp_all
        simp [deferredCandidates, deferredCandidate, setsCanRunRemotely, hL]
    | web =>
      cases isL with
      | false =>
        simp only [List.cons_append, List.append_eq, pickLoop, Bool.false_eq_true, if_false]
        rw [ih _ _ hks]
        simp [deferredCandidates, deferredCandidate, setsCanRunRemotely]
      | true =>
        have hpref : ¬ (pref = ExtensionRunningPreference.None ∨
            pref = ExtensionRunningPreference.Local) := by
          intro hp
          simp [immediateReturn, hp] at hk
        simp only [List.cons_append, List.append_eq, pickLoop, if_true, hpref, if_false]
        rw [ih _ _ hks]
        have hR : pref = ExtensionRunningPreference.Remote := by
          rcases pref with _ | _ | _ <;> simp_all
        simp [deferredCandidates, deferredCandidate, setsCanRunRemotely, hR]

/-- Invariant of the loop: with every accumulated candidate and the
`canRunRemotely` flag justified by the corresponding installation flag, the
loop only returns `Remote` when the extension is installed remotely and only
returns `LocalWebWorker` when it is installed locally. -/
theorem pickLoop_locations (isL isR : Bool) (pref : ExtensionRunningPreference)
    (kinds : List ExtensionKind) :
    ∀ (acc : List ExtensionRunningLocation) (c : Bool),
    (∀ l ∈ acc, (l = ExtensionRunningLocation.Remote → isR = true) ∧
      (l = ExtensionRunningLocation.LocalWebWorker → isL = true)) →
    (c = true → isR = true) →
    (pickLoop isL isR pref kinds acc c = ExtensionRunningLocation.Remote → isR = true) ∧
    (pickLoop isL isR pref kinds acc c = ExtensionRunningLocation.LocalWebWorker → isL = true) := by
  induction kinds with
  | nil =>
    intro acc c hacc hc
    cases c with
    | true =>
      cases acc with
      | nil =>
        refine ⟨fun _ => hc rfl, fun h => ?_⟩
        simp [pickLoop] at h
      | cons a as =>
        simpa [pickLoop] using hacc a (by simp)
    | false =>
      cases acc with
      | nil => simp [pickLoop]
      | cons a as => simpa [pickLoop] using hacc a (by simp)
  | cons k ks ih =>
    intro acc c hacc hc
    cases k with
    | ui =>
      cases isR with
      | false => exact ih acc c hacc hc
      | true =>
        by_cases hp : pref = ExtensionRunningPreference.Remote
        · subst hp
          exact ⟨fun _ => rfl, fun h => nomatch h⟩
        · have hred : pickLoop isL true pref (ExtensionKind.ui :: ks) acc c =
              pickLoop isL true pref ks acc true := by
            simp [pickLoop, hp]
          rw [hred]
          exact ih acc true hacc (fun _ => rfl)
    | workspace =>
      cases isR with
      | false => exact ih acc c hacc hc
      | true =>
        by_cases hp : pref = ExtensionRunningPreference.None ∨
            pref = ExtensionRunningPreference.Remote
        · have hred : pickLoop isL true pref (ExtensionKind.workspace :: ks) acc c =
              ExtensionRunningLocation.Remote := by
            rcases hp with hp | hp <;> simp [pickLoop, hp]
          rw [hred]
          exact ⟨fun _ => rfl, fun h => nomatch h⟩
        · have hred : pickLoop isL true pref (ExtensionKind.workspace :: ks) acc c =
              pickLoop isL true pref ks (acc ++ [ExtensionRunningLocation.Remote]) c := by
            simp [pickLoop, hp]
          rw [hred]
          refine ih (acc ++ [ExtensionRunningLocation.Remote]) c ?_ hc
          intro l hl
          rcases List.mem_append.1 hl with hl | hl
          · exact hacc l hl
          · simp at hl
            subst hl
            exact ⟨fun _ => rfl, fun h => nomatch h⟩
    | web =>
      cases isL with
      | false => exact ih acc c hacc hc
      | true =>
        by_cases hp : pref = ExtensionRunningPreference.None ∨
            pref = ExtensionRunningPreference.Local
        · have hred : pickLoop true isR pref (ExtensionKind.web :: ks) acc c =
              ExtensionRunningLocation.LocalWebWorker := by
            rcases hp with hp | hp <;> simp [pickLoop, hp]
          rw [hred]
          exact ⟨fun h => (nomatch h), fun _ => rfl⟩
        · have hred : pickLoop true isR pref (ExtensionKind.web :: ks) acc c =
              pickLoop true isR pref ks (acc ++ [ExtensionRunningLocation.LocalWebWorker]) c := by
            simp [pickLoop, hp]
          rw [hred]
          refine ih (acc ++ [ExtensionRunningLocation.LocalWebWorker]) c ?_ hc
          intro l hl
          rcases List.mem_append.1 hl with hl | hl
          · exact hacc l hl
          · simp at hl
            subst hl
            exact ⟨fun h => (nomatch h), fun _ => rfl⟩

/-- C1: if no kind of the list triggers an immediate return, the result of
`pickRunningLocation` is the first deferred candidate collected in kind
order, with the single last-resort `Remote` candidate (from a `ui`/remote
kind under preference `None` or `Local`) appended after all workspace/web
candidates, and `None` when no candidate was deferred either. -/
theorem pickRunningLocation_no_immediate (kinds : List ExtensionKind)
    (isL isR : Bool) (pref : ExtensionRunningPreference)
    (h : ∀ k ∈ kinds, immediateReturn k isL isR pref = none) :
    pickRunningLocation kinds isL isR pref =
      finalize (deferredCandidates kinds isL isR pref)
        (setsCanRunRemotely kinds isR pref) := by
  have hk : kinds = kinds ++ [] := by simp
  rw [pickRunningLocation, hk, pickLoop_append isL isR pref kinds [] [] false h,
    pickLoop_nil]
  simp

/-- Witness for C1 at kinds `[workspace, web, ui]`, installed remotely only,
preference `Local`. -/
theorem pickRunningLocation_no_immediate_witness :
    (∀ k ∈ [ExtensionKind.workspace, ExtensionKind.web, ExtensionKind.ui],
      immediateReturn k false true ExtensionRunningPreference.Local = none) ∧
    pickRunningLocation [ExtensionKind.workspace, ExtensionKind.web, ExtensionKind.ui]
        false true ExtensionRunningPreference.Local =
      finalize
        (deferredCandidates [ExtensionKind.workspace, ExtensionKind.web, ExtensionKind.ui]
          false true ExtensionRunningPreference.Local)
        (setsCanRunRemotely [ExtensionKind.workspace, ExtensionKind.web, ExtensionKind.ui]
          true ExtensionRunningPreference.Local) :=
  ⟨by decide,
   pickRunningLocation_no_immediate
     [ExtensionKind.workspace, ExtensionKind.web, ExtensionKind.ui]
     false true ExtensionRunningPreference.Local (by decide)⟩

/-- C5: for the kinds list `[ui]` with the extension installed neither
remotely nor locally, `pickRunningLocation` returns `None` for every
preference. -/
theorem pickRunningLocation_ui_not_installed (pref : ExtensionRunningPreference) :
    pickRunningLocation [ExtensionKind.ui] false false pref =
      ExtensionRunningLocation.None := by
  cases pref <;> rfl

/-- C6: for the kinds list `[workspace, web]`, installed both locally and
remotely, preference `Local`, the result is `LocalWebWorker`: the `web`
kind's immediate return wins over the `Remote` candidate the earlier
`workspace` kind deferred. -/
theorem pickRunningLocation_workspace_web_local :
    pickRunningLocation [ExtensionKind.workspace, ExtensionKind.web] true true
      ExtensionRunningPreference.Local = ExtensionRunningLocation.LocalWebWorker := rfl

/-- C10: `pickRunningLocation` returns `Remote` only when the extension is
installed remotely, returns `LocalWebWorker` only when it is installed
locally, and returns `None` on the empty kinds list. -/
theorem pickRunningLocation_requires_installation (kinds : List ExtensionKind)
    (isL isR : Bool) (pref : ExtensionRunningPreference) :
    (pickRunningLocation kinds isL isR pref = ExtensionRunningLocation.Remote →
      isR = true) ∧
    (pickRunningLocation kinds isL isR pref = ExtensionRunningLocation.LocalWebWorker →
      isL = true) ∧
    pickRunningLocation [] isL isR pref = ExtensionRunningLocation.None := by
  have h := pickLoop_locations isL isR pref kinds [] false (by simp) (fun hx => nomatch hx)
  exact ⟨h.1, h.2, rfl⟩

/-- Witness for C10 at kinds `[workspace]`, installed remotely only,
preference `None` (the result is `Remote`, so the first implication fires). -/
theorem pickRunningLocation_requires_installation_witness :
    pickRunningLocation [ExtensionKind.workspace] false true
        ExtensionRunningPreference.None = ExtensionRunningLocation.Remote ∧
    true = true :=
  ⟨by decide,
   (pickRunningLocation_requires_installation [ExtensionKind.workspace] false true
     ExtensionRunningPreference.None).1 (by decide)⟩

/-- C2 counterexample: the kinds list `[web, workspace]` contains
`workspace`, the extension is installed remotely (and locally) and the
preference is `None`, yet `pickRunningLocation` does not return `Remote`:
the earlier `web` kind returns `LocalWebWorker` first. -/
theorem pickRunningLocation_workspace_not_always_remote :
    ExtensionKind.workspace ∈ [ExtensionKind.web, ExtensionKind.workspace] ∧
    pickRunningLocation [ExtensionKind.web, ExtensionKind.workspace] true true
        ExtensionRunningPreference.None = ExtensionRunningLocation.LocalWebWorker ∧
    pickRunningLocation [ExtensionKind.web, ExtensionKind.workspace] true true
        ExtensionRunningPreference.None ≠ ExtensionRunningLocation.Remote := by
  refine ⟨by decide, rfl, by decide⟩

/-- C2 (amended): when the scan actually reaches a `workspace` kind — no
kind before it triggers an immediate return — with the extension installed
remotely and preference `None` or `Remote`, `pickRunningLocation` returns
`Remote` immediately, whatever kinds follow and whatever candidates were
deferred before. -/
theorem pickRunningLocation_workspace_remote_immediate
    (pre post : List ExtensionKind) (isL : Bool)
    (pref : ExtensionRunningPreference)
    (hpref : pref = ExtensionRunningPreference.None ∨
      pref = ExtensionRunningPreference.Remote)
    (hpre : ∀ k ∈ pre, immediateReturn k isL true pref = none) :
    pickRunningLocation (pre ++ ExtensionKind.workspace :: post) isL true pref =
      ExtensionRunningLocation.Remote := by
  rw [pickRunningLocation, pickLoop_append isL true pref pre
    (ExtensionKind.workspace :: post) [] false hpre]
  rcases hpref with hp | hp <;> simp [pickLoop, hp]

/-- Witness for the amended C2 at `[ui] ++ workspace :: [web]`, installed
both locally and remotely, preference `None`. -/
theorem pickRunningLocation_workspace_remote_immediate_witness :
    ((ExtensionRunningPreference.None = ExtensionRunningPreference.None ∨
      ExtensionRunningPreference.None = ExtensionRunningPreference.Remote) ∧
     ∀ k ∈ [ExtensionKind.ui],
       immediateReturn k true true ExtensionRunningPreference.None = none) ∧
    pickRunningLocation ([ExtensionKind.ui] ++ ExtensionKind.workspace :: [ExtensionKind.web])
        true true ExtensionRunningPreference.None = ExtensionRunningLocation.Remote :=
  ⟨⟨Or.inl rfl, by decide⟩,
   pickRunningLocation_workspace_remote_immediate [ExtensionKind.ui] [ExtensionKind.web]
     true ExtensionRunningPreference.None (Or.inl rfl) (by decide)⟩

/-- C3: when the scan reaches a `web` kind — no kind before it triggers an
immediate return — with the extension installed locally and preference
`None` or `Local`, `pickRunningLocation` returns `LocalWebWorker`
immediately, whatever kinds follow. -/
theorem pickRunningLocation_web_local_immediate
    (pre post : List ExtensionKind) (isR : Bool)
    (pref : ExtensionRunningPreference)
    (hpref : pref = ExtensionRunningPreference.None ∨
      pref = ExtensionRunningPreference.Local)
    (hpre : ∀ k ∈ pre, immediateReturn k true isR pref = none) :
    pickRunningLocation (pre ++ ExtensionKind.web :: post) true isR pref =
      ExtensionRunningLocation.LocalWebWorker := by
  rw [pickRunningLocation, pickLoop_append true isR pref pre
    (ExtensionKind.web :: post) [] false hpre]
  rcases hpref with hp | hp <;> simp [pickLoop, hp]

/-- Witness for C3 at `[workspace] ++ web :: []`, installed locally only,
preference `None`. -/
theorem pickRunningLocation_web_local_immediate_witness :
    ((ExtensionRunningPreference.None = ExtensionRunningPreference.None ∨
      ExtensionRunningPreference.None = ExtensionRunningPreference.Local) ∧
     ∀ k ∈ [ExtensionKind.workspace],
       immediateReturn k true false ExtensionRunningPreference.None = none) ∧
    pickRunningLocation ([ExtensionKind.workspace] ++ ExtensionKind.web :: [])
        true false ExtensionRunningPreference.None =
      ExtensionRunningLocation.LocalWebWorker :=
  ⟨⟨Or.inl rfl, by decide⟩,
   pickRunningLocation_web_local_immediate [ExtensionKind.workspace] []
     false ExtensionRunningPreference.None (Or.inl rfl) (by decide)⟩

/-- Under preference `Remote`, a `ui` kind of a remotely installed
extension returns `Remote` as soon as it is reached, and every kind that
could return before it (only `workspace`) also returns `Remote`. -/
theorem pickLoop_ui_pref_remote (isL : Bool) (kinds : List ExtensionKind) :
    ExtensionKind.ui ∈ kinds →
    ∀ (acc : List ExtensionRunningLocation) (c : Bool),
    pickLoop isL true ExtensionRunningPreference.Remote kinds acc c =
      ExtensionRunningLocation.Remote := by
  induction kinds with
  | nil => exact fun hui => (List.not_mem_nil _ hui).elim
  | cons k ks ih =>
    intro hui acc c
    cases k with
    | ui => rfl
    | workspace => rfl
    | web =>
      have h : ExtensionKind.ui ∈ ks := by
        rcases List.mem_cons.1 hui with h | h
        · exact (nomatch h)
        · exact h
      cases isL with
      | false => exact ih h acc c
      | true =>
        have hred : pickLoop true true ExtensionRunningPreference.Remote
            (ExtensionKind.web :: ks) acc c =
            pickLoop true true ExtensionRunningPreference.Remote ks
              (acc ++ [ExtensionRunningLocation.LocalWebWorker]) c := by
          simp [pickLoop]
        rw [hred]
        exact ih h _ c

/-- When the preference is not `Remote`, the `ui` kinds of the list are
invisible to the loop except through the `canRunRemotely` flag: the run
equals the run over the list with all `ui` kinds filtered out, with the
flag forced when some `ui` kind is present and the extension is installed
remotely. -/
theorem beq_ui_eval :
    (ExtensionKind.ui == ExtensionKind.ui) = true ∧
    (ExtensionKind.workspace == ExtensionKind.ui) = false ∧
    (ExtensionKind.web == ExtensionKind.ui) = false := ⟨rfl, rfl, rfl⟩

theorem pickLoop_filter_ui (isL isR : Bool) (pref : ExtensionRunningPreference)
    (hpref : ¬ pref = ExtensionRunningPreference.Remote) (kinds : List ExtensionKind) :
    ∀ (acc : List ExtensionRunningLocation) (c : Bool),
    pickLoop isL isR pref kinds acc c =
      pickLoop isL isR pref (kinds.filter (fun k => !(k == ExtensionKind.ui))) acc
        (c || (isR && kinds.any (fun k => k == ExtensionKind.ui))) := by
  induction kinds with
  | nil => intro acc c; simp
  | cons k ks ih =>
    intro acc c
    cases k with
    | ui =>
      cases isR with
      | false =>
        simpa [pickLoop, List.filter_cons, List.any_cons, beq_ui_eval.1]
          using ih acc c
      | true =>
        simpa [pickLoop, List.filter_cons, List.any_cons, beq_ui_eval.1, hpref]
          using ih acc true
    | workspace =>
      cases isR with
      | false =>
        simpa [pickLoop, List.filter_cons, List.any_cons, beq_ui_eval.2.1]
          using ih acc c
      | true =>
        by_cases hp : pref = ExtensionRunningPreference.None ∨
            pref = ExtensionRunningPreference.Remote
        · have hpn : pref = ExtensionRunningPreference.None := by
            rcases hp with hp | hp
            · exact hp
            · exact absurd hp hpref
          simp [pickLoop, List.filter_cons, beq_ui_eval.2.1, hpn]
        · simpa [pickLoop, List.filter_cons, List.any_cons, beq_ui_eval.2.1, hp]
            using ih (acc ++ [ExtensionRunningLocation.Remote]) c
    | web =>
      cases isL with
      | false =>
        simpa [pickLoop, List.filter_cons, List.any_cons, beq_ui_eval.2.2]
          using ih acc c
      | true =>
        by_cases hp : pref = ExtensionRunningPreference.None ∨
            pref = ExtensionRunningPreference.Local
        · rcases hp with hp | hp <;>
            simp [pickLoop, List.filter_cons, beq_ui_eval.2.2, hp]
        · simpa [pickLoop, List.filter_cons, List.any_cons, beq_ui_eval.2.2, hp]
            using ih (acc ++ [ExtensionRunningLocation.LocalWebWorker]) c

/-- A run of the loop with the `canRunRemotely` flag already set equals the
run without the flag, with `Remote` substituted when that run would yield
`None` (the appended last-resort candidate is used exactly when nothing
else produced a result). -/
theorem pickLoop_flag_fallback (isL isR : Bool) (pref : ExtensionRunningPreference)
    (kinds : List ExtensionKind) :
    ∀ (acc : List ExtensionRunningLocation),
    (∀ l ∈ acc, ¬ l = ExtensionRunningLocation.None) →
    pickLoop isL isR pref kinds acc true =
      (if pickLoop isL isR pref kinds acc false = ExtensionRunningLocation.None
       then ExtensionRunningLocation.Remote
       else pickLoop isL isR pref kinds acc false) := by
  induction kinds with
  | nil =>
    intro acc hacc
    cases acc with
    | nil => rfl
    | cons a as =>
      have ha := hacc a (by simp)
      simp [pickLoop, ha]
  | cons k ks ih =>
    intro acc hacc
    cases k with
    | ui =>
      cases isR with
      | false => exact ih acc hacc
      | true =>
        by_cases hp : pref = ExtensionRunningPreference.Remote
        · subst hp; rfl
        · have h1 : pickLoop isL true pref (ExtensionKind.ui :: ks) acc true =
              pickLoop isL true pref ks acc true := by simp [pickLoop, hp]
          have h2 : pickLoop isL true pref (ExtensionKind.ui :: ks) acc false =
              pickLoop isL true pref ks acc true := by simp [pickLoop, hp]
          rw [h1, h2, ih acc hacc]
          by_cases hy : pickLoop isL true pref ks acc false = ExtensionRunningLocation.None
          · simp [hy]
          · simp [hy]
    | workspace =>
      cases isR with
      | false => exact ih acc hacc
      | true =>
        by_cases hp : pref = ExtensionRunningPreference.None ∨
            pref = ExtensionRunningPreference.Remote
        · have h1 : pickLoop isL true pref (ExtensionKind.workspace :: ks) acc true =
              ExtensionRunningLocation.Remote := by
            rcases hp with hp | hp <;> simp [pickLoop, hp]
          have h2 : pickLoop isL true pref (ExtensionKind.workspace :: ks) acc false =
              ExtensionRunningLocation.Remote := by
            rcases hp with hp | hp <;> simp [pickLoop, hp]
          rw [h1, h2]
          simp
        · have h1 : pickLoop isL true pref (ExtensionKind.workspace :: ks) acc true =
              pickLoop isL true pref ks (acc ++ [ExtensionRunningLocation.Remote]) true := by
            simp [pickLoop, hp]
          have h2 : pickLoop isL true pref (ExtensionKind.workspace :: ks) acc false =
              pickLoop isL true pref ks (acc ++ [ExtensionRunningLocation.Remote]) false := by
            simp [pickLoop, hp]
          rw [h1, h2]
          refine ih (acc ++ [ExtensionRunningLocation.Remote]) ?_
          intro l hl
          rcases List.mem_append.1 hl with hl | hl
          · exact hacc l hl
          · simp at hl
            subst hl
            exact fun h => nomatch h
    | web =>
      cases isL with
      | false => exact ih acc hacc
      | true =>
        by_cases hp : pref = ExtensionRunningPreference.None ∨
            pref = ExtensionRunningPreference.Local
        · have h1 : pickLoop true isR pref (ExtensionKind.web :: ks) acc true =
              ExtensionRunningLocation.LocalWebWorker := by
            rcases hp with hp | hp <;> simp [pickLoop, hp]
          have h2 : pickLoop true isR pref (ExtensionKind.web :: ks) acc false =
              ExtensionRunningLocation.LocalWebWorker := by
            rcases hp with hp | hp <;> simp [pickLoop, hp]
          rw [h1, h2]
          simp
        · have h1 : pickLoop true isR pref (ExtensionKind.web :: ks) acc true =
              pickLoop true isR pref ks
                (acc ++ [ExtensionRunningLocation.LocalWebWorker]) true := by
            simp [pickLoop, hp]
          have h2 : pickLoop true isR pref (ExtensionKind.web :: ks) acc false =
              pickLoop true isR pref ks
                (acc ++ [ExtensionRunningLocation.LocalWebWorker]) false := by
            simp [pickLoop, hp]
          rw [h1, h2]
          refine ih (acc ++ [ExtensionRunningLocation.LocalWebWorker]) ?_
          intro l hl
          rcases List.mem_append.1 hl with hl | hl
          · exact hacc l hl
          · simp at hl
            subst hl
            exact fun h => nomatch h

/-- C4: for a kinds list containing `ui` with the extension installed
remotely, under preference `Remote` the result is `Remote` (the `ui` kind
returns immediately when reached, and the only kind that can return before
it also returns `Remote`); under preference `None` or `Local` the `ui`
kind never causes an immediate return and only contributes the last-resort
`Remote` fallback: the result is the result over the list without the `ui`
kinds, with `Remote` substituted only when that result would be `None`. -/
theorem pickRunningLocation_ui_last_resort (kinds : List ExtensionKind)
    (isL : Bool) (pref : ExtensionRunningPreference)
    (hui : ExtensionKind.ui ∈ kinds) :
    (pref = ExtensionRunningPreference.Remote →
      pickRunningLocation kinds isL true pref = ExtensionRunningLocation.Remote) ∧
    ((pref = ExtensionRunningPreference.None ∨
        pref = ExtensionRunningPreference.Local) →
      pickRunningLocation kinds isL true pref =
        (if pickRunningLocation (kinds.filter (fun k => !(k == ExtensionKind.ui)))
              isL true pref = ExtensionRunningLocation.None
         then ExtensionRunningLocation.Remote
         else pickRunningLocation (kinds.filter (fun k => !(k == ExtensionKind.ui)))
           isL true pref)) := by
  constructor
  · intro hp
    subst hp
    exact pickLoop_ui_pref_remote isL kinds hui [] false
  · intro hp
    have hpref : ¬ pref = ExtensionRunningPreference.Remote := by
      rcases hp with hp | hp <;> simp [hp]
    have hany : kinds.any (fun k => k == ExtensionKind.ui) = true :=
      List.any_eq_true.2 ⟨ExtensionKind.ui, hui, by simp⟩
    rw [pickRunningLocation, pickLoop_filter_ui isL true pref hpref kinds [] false]
    have hflag : (false || (true && kinds.any (fun k => k == ExtensionKind.ui))) = true := by
      simp [hany]
    rw [hflag, pickLoop_flag_fallback isL true pref _ [] (by simp)]
    rfl

/-- Witness for C4 at kinds `[ui, web]`, installed both locally and
remotely, preference `Remote` (the first conjunct fires). -/
theorem pickRunningLocation_ui_last_resort_witness :
    ExtensionKind.ui ∈ [ExtensionKind.ui, ExtensionKind.web] ∧
    pickRunningLocation [ExtensionKind.ui, ExtensionKind.web] true true
        ExtensionRunningPreference.Remote = ExtensionRunningLocation.Remote :=
  ⟨by decide,
   (pickRunningLocation_ui_last_resort [ExtensionKind.ui, ExtensionKind.web] true
     ExtensionRunningPreference.Remote (by decide)).1 rfl⟩

end ExtensionService

namespace Preload

/-- Structural model of JavaScript `String.prototype.startsWith`: the
characters of the first list start with the characters of the second. -/
def charsStartWith : List Char → List Char → Bool
  | _, [] => true
  | [], _ :: _ => false
  | c :: cs, p :: ps => c == p && charsStartWith cs ps

/-- `s.startsWith(pat)` on strings. -/
def strStartsWith (s pat : String) : Bool := charsStartWith s.data pat.data

/-- The errors thrown by the preload validation helpers. -/
inductive PreloadError where
  | unsupportedChannel (channel : String)
  | unsupportedProcessEvent (eventType : String)
deriving DecidableEq, Repr

/-- `validateIPC` from preload.js lines 18-24: throws unless the channel is
truthy (for a string: non-empty) and starts with the required string
`vscode:`. -/
def validateIPC (channel : String) : Except PreloadError Bool :=
  if (channel == "") || !(strStartsWith channel "vscode:") then
    Except.error (PreloadError.unsupportedChannel channel)
  else
    Except.ok true

/-- A call into the underlying Electron `ipcRenderer` transport. -/
inductive TransportCall where
  | send (channel : String)
  | postMessage (channel : String)
  | invoke (channel : String)
  | on (channel : String)
  | once (channel : String)
  | removeListener (channel : String)
deriving DecidableEq, Repr

/-- `globals.ipcRenderer.send` (preload.js lines 178-182): the underlying
transport is invoked only after `validateIPC` returns; a thrown error
propagates and no transport call happens. -/
def ipcRendererSend (channel : String) : Except PreloadError (List TransportCall) :=
  match validateIPC channel with
  | Except.error e => Except.error e
  | Except.ok _ => Except.ok [TransportCall.send channel]

/-- `globals.ipcRenderer.postMessage` (preload.js lines 189-193). -/
def ipcRendererPostMessage (channel : String) :
    Except PreloadError (List TransportCall) :=
  match validateIPC channel with
  | Except.error e => Except.error e
  | Except.ok _ => Except.ok [TransportCall.postMessage channel]

/-- `globals.ipcRenderer.invoke` (preload.js lines 200-204). -/
def ipcRendererInvoke (channel : String) : Except PreloadError (List TransportCall) :=
  match validateIPC channel with
  | Except.error e => Except.error e
  | Except.ok _ => Except.ok [TransportCall.invoke channel]

/-- `globals.ipcRenderer.on` (preload.js lines 210-214). -/
def ipcRendererOn (channel : String) : Except PreloadError (List TransportCall) :=
  match validateIPC channel with
  | Except.error e => Except.error e
  | Except.ok _ => Except.ok [TransportCall.on channel]

/-- `globals.ipcRenderer.once` (preload.js lines 220-224). -/
def ipcRendererOnce (channel : String) : Except PreloadError (List TransportCall) :=
  match validateIPC channel with
  | Except.error e => Except.error e
  | Except.ok _ => Except.ok [TransportCall.once channel]

/-- `globals.ipcRenderer.removeListener` (preload.js lines 230-234). -/
def ipcRendererRemoveListener (channel : String) :
    Except PreloadError (List TransportCall) :=
  match validateIPC channel with
  | Except.error e => Except.error e
  | Except.ok _ => Except.ok [TransportCall.removeListener channel]

/-- C7: for every channel that does not start with the required string
`vscode:` (the empty string included, since it starts with nothing of that
length), each of the six exposed `ipcRenderer` methods throws — the model
returns the `validateIPC` error, carrying no transport call, so the
underlying Electron transport is never invoked. -/
theorem ipcRenderer_rejects_invalid_channel (channel : String)
    (h : strStartsWith channel "vscode:" = false) :
    ipcRendererSend channel = Except.error (PreloadError.unsupportedChannel channel) ∧
    ipcRendererPostMessage channel =
      Except.error (PreloadError.unsupportedChannel channel) ∧
    ipcRendererInvoke channel = Except.error (PreloadError.unsupportedChannel channel) ∧
    ipcRendererOn channel = Except.error (PreloadError.unsupportedChannel channel) ∧
    ipcRendererOnce channel = Except.error (PreloadError.unsupportedChannel channel) ∧
    ipcRendererRemoveListener channel =
      Except.error (PreloadError.unsupportedChannel channel) := by
  have hv : validateIPC channel = Except.error (PreloadError.unsupportedChannel channel) := by
    simp [validateIPC, h]
  refine ⟨?_, ?_, ?_, ?_, ?_, ?_⟩ <;>
    simp [ipcRendererSend, ipcRendererPostMessage, ipcRendererInvoke, ipcRendererOn,
      ipcRendererOnce, ipcRendererRemoveListener, hv]

/-- Witness for C7 at the empty channel string. -/
theorem ipcRenderer_rejects_invalid_channel_witness :
    strStartsWith "" "vscode:" = false ∧
    ipcRendererSend "" = Except.error (PreloadError.unsupportedChannel "") ∧
    ipcRendererPostMessage "" = Except.error (PreloadError.unsupportedChannel "") ∧
    ipcRendererInvoke "" = Except.error (PreloadError.unsupportedChannel "") ∧
    ipcRendererOn "" = Except.error (PreloadError.unsupportedChannel "") ∧
    ipcRendererOnce "" = Except.error (PreloadError.unsupportedChannel "") ∧
    ipcRendererRemoveListener "" = Except.error (PreloadError.unsupportedChannel "") :=
  ⟨by decide, ipcRenderer_rejects_invalid_channel "" (by decide)⟩

/-- `validateProcessEventType` from preload.js lines 30-36: throws for any
event type other than `uncaughtException`. -/
def validateProcessEventType (eventType : String) : Except PreloadError Bool :=
  if !(eventType == "uncaughtException") then
    Except.error (PreloadError.unsupportedProcessEvent eventType)
  else
    Except.ok true

/-- A callback registration on the underlying node.js `process`. -/
inductive ProcessRegistration where
  | on (eventType : String)
deriving DecidableEq, Repr

/-- `globals.process.on` (preload.js lines 299-303): registers the callback
on the underlying `process` only after `validateProcessEventType` returns. -/
def processOn (eventType : String) : Except PreloadError (List ProcessRegistration) :=
  match validateProcessEventType eventType with
  | Except.error e => Except.error e
  | Except.ok _ => Except.ok [ProcessRegistration.on eventType]

/-- C8: the exposed `process.on` throws for every event type other than
`uncaughtException` — the error carries no registration, so the callback is
never registered on the underlying process — while for `uncaughtException`
it registers the callback and throws no error. -/
theorem processOn_allow_list (eventType : String)
    (h : eventType ≠ "uncaughtException") :
    processOn eventType =
      Except.error (PreloadError.unsupportedProcessEvent eventType) ∧
    processOn "uncaughtException" =
      Except.ok [ProcessRegistration.on "uncaughtException"] := by
  constructor
  · have hb : (eventType == "uncaughtException") = false := by
      simp [h]
    simp [processOn, validateProcessEventType, hb]
  · rfl

/-- Witness for C8 at the event type `exit`. -/
theorem processOn_allow_list_witness :
    "exit" ≠ "uncaughtException" ∧
    processOn "exit" = Except.error (PreloadError.unsupportedProcessEvent "exit") ∧
    processOn "uncaughtException" =
      Except.ok [ProcessRegistration.on "uncaughtException"] :=
  ⟨by decide, processOn_allow_list "exit" (by decide)⟩

/-- The renderer-side state `resolveEnv` touches (preload.js lines 38-72):
the cached `resolvedEnv` promise (identified by a numeric id), the log of
`Object.assign(process.env, …)` applications of a caller's `userEnv`, the
IPC messages sent, the `ipcRenderer.once` listener registrations, and a
counter producing fresh promise ids. -/
structure PreloadProcessState where
  resolvedEnv : Option Nat
  envAssignments : List (List (String × String))
  sentMessages : List String
  onceRegistrations : List String
  nextPromiseId : Nat
deriving DecidableEq, Repr

/-- `resolveEnv` from preload.js lines 50-72 (exposed unchanged as
`globals.process.resolveEnv`, lines 284-286): when no promise is cached it
assigns `userEnv` to `process.env`, registers a `vscode:acceptShellEnv`
listener, sends `vscode:fetchShellEnv`, caches and returns a fresh promise;
otherwise it returns the cached promise and does nothing else. -/
def resolveEnv (userEnv : List (String × String)) (s : PreloadProcessState) :
    PreloadProcessState × Nat :=
  match s.resolvedEnv with
  | some p => (s, p)
  | none =>
    ({ resolvedEnv := some s.nextPromiseId,
       envAssignments := s.envAssignments ++ [userEnv],
       sentMessages := s.sentMessages ++ ["vscode:fetchShellEnv"],
       onceRegistrations := s.onceRegistrations ++ ["vscode:acceptShellEnv"],
       nextPromiseId := s.nextPromiseId + 1 }, s.nextPromiseId)

/-- A sequence of `resolveEnv` calls, returning the final state and the
promise returned by each call. -/
def resolveEnvMany (calls : List (List (String × String)))
    (s : PreloadProcessState) : PreloadProcessState × List Nat :=
  match calls with
  | [] => (s, [])
  | u :: us =>
    let r := resolveEnv u s
    let rs := resolveEnvMany us r.1
    (rs.1, r.2 :: rs.2)

theorem resolveEnvMany_cached (p : Nat) :
    ∀ (calls : List (List (String × String))) (s : PreloadProcessState),
    s.resolvedEnv = some p → resolveEnvMany calls s = (s, calls.map (fun _ => p)) := by
  intro calls
  induction calls with
  | nil => intro s h; simp [resolveEnvMany]
  | cons u us ih =>
    intro s h
    have h1 : resolveEnv u s = (s, p) := by
      simp [resolveEnv, h]
    simp [resolveEnvMany, h1, ih s h]

/-- C9: from a state with no cached promise, the first `resolveEnv` call
assigns its `userEnv` to `process.env`, sends exactly one
`vscode:fetchShellEnv` message and caches the returned promise; every
subsequent call, whatever its argument, returns that same promise and
leaves the state untouched — no further message and no further environment
assignment. -/
theorem resolveEnv_cached (u : List (String × String))
    (calls : List (List (String × String))) (s0 : PreloadProcessState)
    (h : s0.resolvedEnv = none) :
    (resolveEnv u s0).1.resolvedEnv = some (resolveEnv u s0).2 ∧
    (resolveEnv u s0).1.envAssignments = s0.envAssignments ++ [u] ∧
    (resolveEnv u s0).1.sentMessages = s0.sentMessages ++ ["vscode:fetchShellEnv"] ∧
    resolveEnvMany calls (resolveEnv u s0).1 =
      ((resolveEnv u s0).1, calls.map (fun _ => (resolveEnv u s0).2)) := by
  refine ⟨?_, ?_, ?_, ?_⟩
  · simp [resolveEnv, h]
  · simp [resolveEnv, h]
  · simp [resolveEnv, h]
  · exact resolveEnvMany_cached _ calls _ (by simp [resolveEnv, h])

/-- Witness for C9 from the fresh preload state, with a first call and two
further calls with different arguments. -/
theorem resolveEnv_cached_witness :
    (PreloadProcessState.mk none [] [] [] 0).resolvedEnv = none ∧
    ((resolveEnv [("A", "1")] (PreloadProcessState.mk none [] [] [] 0)).1.resolvedEnv =
      some (resolveEnv [("A", "1")] (PreloadProcessState.mk none [] [] [] 0)).2 ∧
    (resolveEnv [("A", "1")] (PreloadProcessState.mk none [] [] [] 0)).1.envAssignments =
      [] ++ [[("A", "1")]] ∧
    (resolveEnv [("A", "1")] (PreloadProcessState.mk none [] [] [] 0)).1.sentMessages =
      [] ++ ["vscode:fetchShellEnv"] ∧
    resolveEnvMany [[("B", "2")], []]
        (resolveEnv [("A", "1")] (PreloadProcessState.mk none [] [] [] 0)).1 =
      ((resolveEnv [("A", "1")] (PreloadProcessState.mk none [] [] [] 0)).1,
       [[("B", "2")], []].map
         (fun _ => (resolveEnv [("A", "1")] (PreloadProcessState.mk none [] [] [] 0)).2))) :=
  ⟨rfl, resolveEnv_cached [("A", "1")] [[("B", "2")], []]
    (PreloadProcessState.mk none [] [] [] 0) rfl⟩

end Preload
